import Mathlib

/-!
The netfs client: the four file-system operations of `netfs_client.c`.

A shallow embedding of `netfs_getattr`, `netfs_readdir`, `netfs_open` and
`netfs_read`, followed by theorems about them.

Conventions of the embedding.

* A C string is the list of its bytes before the terminating NUL (`CString`).
* `size_t` is a `Nat` below `2 ^ 64` with wrap-around written out, `off_t` and
  `int` are `Int`.
* The caller's buffers are passed in and handed back: `netfs_read` takes the
  bytes of `buf` and returns the bytes after the call, `netfs_getattr` does the
  same with `struct stat`, and `netfs_readdir` threads the host's directory
  buffer through the `filler` callback.
* Behaviour that C leaves undefined (reading past the end of an object) is an
  `Except.error` carrying a `Fault`.
* `LOG(...)` lines are left out: they write a message and change nothing else.
-/

set_option linter.unusedVariables false

namespace Netfs

/-! ## C strings and libc -/

/-- A C string: the bytes in front of its terminating NUL. -/
abbrev CString := List Nat

/-- The bytes of an ASCII string literal of the source. -/
def cstr (s : String) : CString := s.data.map Char.toNat

/-- What C leaves undefined in these functions. -/
inductive Fault where
  /-- The byte after the terminator of an empty path is read (`path+1`). -/
  | path_overrun
  /-- Call `memcpy(dst, src, n)` with `n` larger than the `src_len` bytes
  readable at `src` or than the `dst_len` bytes writable at `dst`. -/
  | memcpy_overrun (n src_len dst_len : Nat)
  deriving DecidableEq

deriving instance DecidableEq for Except

/-- Libc `strcmp` on the memory `a ++ [0]` and `b ++ [0]`: zero when the two
strings agree up to their terminators, else the difference of the first pair
of bytes that differ. -/
def strcmp : CString → CString → Int
  | [], [] => 0
  | [], b :: _ => 0 - (b : Int)
  | a :: _, [] => (a : Int)
  | a :: s, b :: t =>
    if a = b then (if a = 0 then 0 else strcmp s t) else (a : Int) - (b : Int)

/-- Libc `strlen` on the memory `s ++ [0]`. -/
def strlen : CString → Nat
  | [] => 0
  | c :: s => if c = 0 then 0 else 1 + strlen s

/-- Libc `memcpy(dst, src, n)`, where `src` lists the bytes readable from the
source pointer on and `dst` the bytes writable from the destination pointer
on. The result is the destination after the copy. -/
def memcpy (dst src : List Nat) (n : Nat) : Except Fault (List Nat) :=
  if n ≤ src.length ∧ n ≤ dst.length then .ok (src.take n ++ dst.drop n)
  else .error (.memcpy_overrun n src.length dst.length)

/-- The expression `path+1` when it is handed to `strcmp`: the string without
its first byte. An empty path has nothing after its terminator. -/
def path_plus_one : CString → Except Fault CString
  | [] => .error .path_overrun
  | _ :: rest => .ok rest

/-! ## Machine integers -/

/-- Conversion of an `off_t` to `size_t` (64 bits, two's complement). -/
def to_size_t (x : Int) : Nat := (x % 2 ^ 64).toNat

/-- Conversion of a `size_t` to the `int` a function returns (32 bits). -/
def size_t_to_int (n : Nat) : Int := ((n : Int) + 2 ^ 31) % 2 ^ 32 - 2 ^ 31

/-! ## Constants of the system headers (Linux) -/

/-- Errno value `ENOENT`. -/
def ENOENT : Int := 2
/-- Errno value `EACCES`. -/
def EACCES : Int := 13
/-- Mask `O_ACCMODE` of the access mode in the open flags. -/
def O_ACCMODE : Int := 3
/-- Access mode `O_RDONLY`. -/
def O_RDONLY : Int := 0
/-- Access mode `O_WRONLY`. -/
def O_WRONLY : Int := 1
/-- Access mode `O_RDWR`. -/
def O_RDWR : Int := 2
/-- Mask `S_IFMT` of the file type in `st_mode`. -/
def S_IFMT : Nat := 0o170000
/-- File type `S_IFDIR`. -/
def S_IFDIR : Nat := 0o040000
/-- File type `S_IFREG`. -/
def S_IFREG : Nat := 0o100000

/-! ## Data -/

/-- A `struct timespec`. -/
structure Timespec where
  tv_sec : Int
  tv_nsec : Int
  deriving DecidableEq

/-- A `struct stat`. -/
structure Stat where
  st_dev : Nat
  st_ino : Nat
  st_nlink : Nat
  st_mode : Nat
  st_uid : Nat
  st_gid : Nat
  st_rdev : Nat
  st_size : Int
  st_blksize : Int
  st_blocks : Int
  st_atim : Timespec
  st_mtim : Timespec
  st_ctim : Timespec
  deriving DecidableEq

/-- The effect of `memset(stbuf, 0, sizeof(struct stat))`. -/
def memset_zero (stbuf : Stat) : Stat :=
  { st_dev := 0, st_ino := 0, st_nlink := 0, st_mode := 0, st_uid := 0,
    st_gid := 0, st_rdev := 0, st_size := 0, st_blksize := 0, st_blocks := 0,
    st_atim := ⟨0, 0⟩, st_mtim := ⟨0, 0⟩, st_ctim := ⟨0, 0⟩ }

/-- The one field of `struct fuse_file_info` the operations read. -/
structure fuse_file_info where
  flags : Int
  deriving DecidableEq

/-- The host's callback `fuse_fill_dir_t`: from the directory buffer, a name,
an optional attribute record, the next offset and the fill flags to the
buffer after the call and the callback's return value. -/
abbrev fuse_fill_dir_t (β : Type) :=
  β → CString → Option Stat → Int → Nat → β × Int

/-- The macro `TEST_DATA`, defined as `"hello world!\n"`. -/
def TEST_DATA : CString := cstr "hello world!\n"

/-! ## The operations -/

/-- The function `netfs_getattr(path, stbuf, fi)`: the return value and `*stbuf` after the
call. -/
def netfs_getattr (path : CString) (stbuf : Stat) (fi : Option fuse_file_info) :
    Except Fault (Int × Stat) :=
  let stbuf := memset_zero stbuf
  let res : Int := 0
  if strcmp path (cstr "/") = 0 then
    let stbuf := { stbuf with st_mode := S_IFDIR ||| 0o755 }
    let stbuf := { stbuf with st_nlink := 2 }
    .ok (res, stbuf)
  else
    (path_plus_one path).bind fun rest =>
      if strcmp rest (cstr "test_file") = 0 then
        let stbuf := { stbuf with st_mode := S_IFREG ||| 0o444 }
        let stbuf := { stbuf with st_nlink := 1 }
        let stbuf := { stbuf with st_size := (strlen TEST_DATA : Int) }
        .ok (res, stbuf)
      else
        let res := -ENOENT
        .ok (res, stbuf)

/-- The function `netfs_readdir(path, buf, filler, offset, fi, flags)`: the
return value
and the host's directory buffer after the call. -/
def netfs_readdir {β : Type} (path : CString) (buf : β) (filler : fuse_fill_dir_t β)
    (offset : Int) (fi : fuse_file_info) (flags : Nat) : Int × β :=
  let res : Int := 0
  if strcmp path (cstr "/") ≠ 0 then
    (-ENOENT, buf)
  else
    let buf := (filler buf (cstr ".") none 0 0).1
    let buf := (filler buf (cstr "..") none 0 0).1
    let buf := (filler buf (cstr "test_file") none 0 0).1
    (res, buf)

/-- The function `netfs_open(path, fi)`: the return value. -/
def netfs_open (path : CString) (fi : fuse_file_info) : Except Fault Int :=
  let res : Int := 0
  (path_plus_one path).bind fun rest =>
    if strcmp rest (cstr "test_file") ≠ 0 then
      .ok (-ENOENT)
    else if Int.land fi.flags O_ACCMODE ≠ O_RDONLY then
      .ok (-EACCES)
    else
      .ok res

/-- The function `netfs_read(path, buf, size, offset, fi)`: the return value
and the bytes
of `buf` after the call. The literal `TEST_DATA` is stored with its
terminator, so `TEST_DATA + offset` has `(TEST_DATA ++ [0]).drop offset`
readable bytes. -/
def netfs_read (path : CString) (buf : List Nat) (size : Nat) (offset : Int)
    (fi : fuse_file_info) : Except Fault (Int × List Nat) :=
  (path_plus_one path).bind fun rest =>
    if strcmp rest (cstr "test_file") ≠ 0 then
      .ok (-ENOENT, buf)
    else
      let len := strlen TEST_DATA
      if to_size_t offset < len then
        let size :=
          if (to_size_t offset + size) % 2 ^ 64 > len then
            (len + 2 ^ 64 - to_size_t offset) % 2 ^ 64
          else size
        (memcpy buf ((TEST_DATA ++ [0]).drop offset.toNat) size).bind fun buf =>
          .ok (size_t_to_int size, buf)
      else
        let size := 0
        .ok (size_t_to_int size, buf)

/-! ## Auxiliary definitions for the statements -/

/-- One call of the `filler` callback: its arguments after the buffer. -/
structure FillCall where
  name : CString
  stbuf : Option Stat
  off : Int
  flags : Nat
  deriving DecidableEq

/-- A host callback that also appends each call it receives to a log kept
next to the host's own buffer. -/
def logged {β : Type} (filler : fuse_fill_dir_t β) : fuse_fill_dir_t (List FillCall × β) :=
  fun buf name stbuf off flags =>
    let r := filler buf.2 name stbuf off flags
    ((buf.1 ++ [⟨name, stbuf, off, flags⟩], r.1), r.2)

/-- A string that can be a C string: no NUL byte in it. -/
def WellFormed (s : CString) : Prop := 0 ∉ s

instance (s : CString) : Decidable (WellFormed s) := by
  unfold WellFormed; infer_instance

/-- What a read hands back to its caller: the return value with the bytes it
delivered, the first `r` bytes of the buffer for a count `r`. -/
def delivered (res : Int × List Nat) : Int × List Nat :=
  (res.1, res.2.take res.1.toNat)

/-- Consecutive reads of `path`: one read per requested length, each into a
fresh buffer of that length, each starting where the previous request ended.
The result is the concatenation of the bytes the reads delivered. -/
def read_chunks (path : CString) (fi : fuse_file_info) :
    List Nat → Int → Except Fault (List Nat)
  | [], _ => .ok []
  | k :: ks, offset =>
    (netfs_read path (List.replicate k 0) k offset fi).bind fun res =>
      (read_chunks path fi ks (offset + k)).bind fun rest =>
        .ok ((delivered res).2 ++ rest)

/-! ## Facts about the libc model and the constants -/

theorem strcmp_self (a : CString) : strcmp a a = 0 := by
  induction a with
  | nil => rfl
  | cons x s ih => simp [strcmp, ih]

theorem strcmp_eq_zero_iff (a b : CString) (ha : WellFormed a) (hb : WellFormed b) :
    strcmp a b = 0 ↔ a = b := by
  induction a generalizing b with
  | nil =>
    cases b with
    | nil => simp [strcmp]
    | cons y t =>
      have hy : y ≠ 0 := fun h => hb (by simp [h])
      simp [strcmp, hy]
  | cons x s ih =>
    have hx : x ≠ 0 := fun h => ha (by simp [h])
    have hs : WellFormed s := fun h => ha (List.mem_cons_of_mem _ h)
    cases b with
    | nil => simp [strcmp, hx]
    | cons y t =>
      have ht : WellFormed t := fun h => hb (List.mem_cons_of_mem _ h)
      by_cases hxy : x = y
      · subst hxy
        simp [strcmp, hx, ih t hs ht]
      · have : (x : Int) - (y : Int) ≠ 0 := by omega
        simp [strcmp, hxy, this]

theorem strlen_TEST_DATA : strlen TEST_DATA = 13 := by decide

theorem length_TEST_DATA : TEST_DATA.length = 13 := by decide

theorem to_size_t_natCast (o : Nat) (ho : o < 2 ^ 64) : to_size_t (o : Int) = o := by
  unfold to_size_t
  omega

theorem size_t_to_int_small (n : Nat) (hn : n < 2 ^ 31) : size_t_to_int n = n := by
  unfold size_t_to_int
  omega

/-! ## Path dispatch -/

theorem wellFormed_test_file : WellFormed (cstr "test_file") := by decide

theorem wellFormed_root : WellFormed (cstr "/") := by decide

/-- On a path `c :: rest` whose tail is not `test_file`, the three operations
that compare `path+1` take their not-found branch. -/
theorem strcmp_rest_ne (rest : CString) (hw : WellFormed rest)
    (hne : rest ≠ cstr "test_file") : strcmp rest (cstr "test_file") ≠ 0 := by
  intro h
  exact hne ((strcmp_eq_zero_iff rest _ hw wellFormed_test_file).mp h)

/-! ## The window of `netfs_read` -/

theorem take_drop_append_of_le (l m : List Nat) (k n : Nat) (h : k + n ≤ l.length) :
    ((l ++ m).drop k).take n = (l.drop k).take n := by
  rw [List.drop_append_of_le_length (by omega)]
  rw [List.take_append_of_le_length (by simp; omega)]

/-- The read of `/test_file` at a natural offset, when `offset + size` does
not wrap: the count is `min size (13 - offset)` and the buffer receives that
many bytes of `TEST_DATA` from `offset` on, in front of its old tail. -/
theorem netfs_read_window_nat (buf : List Nat) (size o : Nat) (fi : fuse_file_info)
    (hbuf : size ≤ buf.length) (hsum : o + size < 2 ^ 64) :
    netfs_read (cstr "/test_file") buf size (o : Int) fi =
      .ok (((min size (13 - o) : Nat) : Int),
        (TEST_DATA.drop o).take (min size (13 - o)) ++ buf.drop (min size (13 - o))) := by
  have ho : to_size_t (o : Int) = o := to_size_t_natCast o (by omega)
  have hpath : path_plus_one (cstr "/test_file") = .ok (cstr "test_file") := rfl
  have hcmp : strcmp (cstr "test_file") (cstr "test_file") = 0 := strcmp_self _
  unfold netfs_read
  simp only [hpath, Except.bind, hcmp, ne_eq, not_true_eq_false, if_false, ho,
    strlen_TEST_DATA, Int.toNat_ofNat]
  by_cases hlt : o < 13
  · have hmod : (o + size) % 2 ^ 64 = o + size := Nat.mod_eq_of_lt hsum
    have hsub : (13 + 2 ^ 64 - o) % 2 ^ 64 = 13 - o := by omega
    rw [if_pos hlt, hmod, hsub]
    have hn : (if o + size > 13 then 13 - o else size) = min size (13 - o) := by
      split <;> omega
    rw [hn]
    have hlen : ((TEST_DATA ++ [0]).drop o).length = 14 - o := by
      simp [length_TEST_DATA]
    have hmin : min size (13 - o) ≤ 13 - o := Nat.min_le_right _ _
    have hmin2 : min size (13 - o) ≤ size := Nat.min_le_left _ _
    unfold memcpy
    rw [if_pos ⟨by rw [hlen]; omega, by omega⟩]
    rw [take_drop_append_of_le _ _ _ _ (by rw [length_TEST_DATA]; omega)]
    rw [size_t_to_int_small _ (by omega)]
  · rw [if_neg hlt]
    have h0 : min size (13 - o) = 0 := by omega
    rw [h0]
    simp [size_t_to_int]

/-- The read of `/test_file` at any offset `0 ≤ offset`, when `offset + size`
does not wrap. -/
theorem netfs_read_window (buf : List Nat) (size : Nat) (offset : Int) (fi : fuse_file_info)
    (h0 : 0 ≤ offset) (hbuf : size ≤ buf.length) (hsum : offset + size < 2 ^ 64) :
    netfs_read (cstr "/test_file") buf size offset fi =
      .ok (((min size (13 - offset.toNat) : Nat) : Int),
        (TEST_DATA.drop offset.toNat).take (min size (13 - offset.toNat))
          ++ buf.drop (min size (13 - offset.toNat))) := by
  obtain ⟨o, rfl⟩ := Int.eq_ofNat_of_zero_le h0
  have := netfs_read_window_nat buf size o fi hbuf (by omega)
  simpa using this

/-- The read of `/test_file` at an offset at or past the end of the content
returns 0 and leaves the buffer alone, whatever the length is. -/
theorem netfs_read_past_end (buf : List Nat) (size o : Nat) (fi : fuse_file_info)
    (ho : 13 ≤ o) (ho64 : o < 2 ^ 64) :
    netfs_read (cstr "/test_file") buf size (o : Int) fi = .ok (0, buf) := by
  have hto : to_size_t (o : Int) = o := to_size_t_natCast o ho64
  have hpath : path_plus_one (cstr "/test_file") = .ok (cstr "test_file") := rfl
  have hcmp : strcmp (cstr "test_file") (cstr "test_file") = 0 := strcmp_self _
  have hlt : ¬ o < 13 := by omega
  unfold netfs_read
  simp only [hpath, Except.bind, hcmp, ne_eq, not_true_eq_false, if_false, hto,
    strlen_TEST_DATA]
  rw [if_neg hlt]
  simp [size_t_to_int]

/-- A read whose `offset + size` wraps around `2 ^ 64` skips the clamp and
asks `memcpy` for all `size` bytes. -/
theorem netfs_read_wrap (buf : List Nat) (size o : Nat) (fi : fuse_file_info)
    (ho : 0 < o) (ho13 : o < 13) (hsize : size < 2 ^ 64) (hwrap : 2 ^ 64 ≤ o + size) :
    netfs_read (cstr "/test_file") buf size (o : Int) fi =
      .error (.memcpy_overrun size (14 - o) buf.length) := by
  have ho64 : to_size_t (o : Int) = o := to_size_t_natCast o (by omega)
  have hpath : path_plus_one (cstr "/test_file") = .ok (cstr "test_file") := rfl
  have hcmp : strcmp (cstr "test_file") (cstr "test_file") = 0 := strcmp_self _
  unfold netfs_read
  simp only [hpath, Except.bind, hcmp, ne_eq, not_true_eq_false, if_false, ho64,
    strlen_TEST_DATA, Int.toNat_ofNat]
  have hmod : ¬ (o + size) % 2 ^ 64 > 13 := by omega
  rw [if_pos ho13, if_neg hmod]
  have hlen : ((TEST_DATA ++ [0]).drop o).length = 14 - o := by
    simp [length_TEST_DATA]
  unfold memcpy
  rw [hlen, if_neg (by omega)]

/-- The read depends on the path only through the comparison of `path+1` with
`test_file`. -/
theorem netfs_read_of_rest (p rest : CString) (buf : List Nat) (size : Nat) (offset : Int)
    (fi : fuse_file_info) (hp : path_plus_one p = .ok rest)
    (hcmp : strcmp rest (cstr "test_file") = 0) :
    netfs_read p buf size offset fi = netfs_read (cstr "/test_file") buf size offset fi := by
  have hpath : path_plus_one (cstr "/test_file") = .ok (cstr "test_file") := rfl
  have hself : strcmp (cstr "test_file") (cstr "test_file") = 0 := strcmp_self _
  unfold netfs_read
  simp only [hp, hpath, Except.bind, hcmp, hself]

/-- A path that `netfs_open` accepts passes the path check of `netfs_read`. -/
theorem netfs_open_ok_rest (p : CString) (fi : fuse_file_info) (h : netfs_open p fi = .ok 0) :
    ∃ rest, path_plus_one p = .ok rest ∧ strcmp rest (cstr "test_file") = 0 := by
  cases p with
  | nil => simp [netfs_open, path_plus_one, Except.bind] at h
  | cons c rest =>
    refine ⟨rest, rfl, ?_⟩
    by_contra hne
    simp [netfs_open, path_plus_one, Except.bind, hne, ENOENT] at h

/-- After a successful open, a read whose `offset + size` does not wrap
returns a count between 0 and 13. -/
theorem netfs_read_after_open (p : CString) (fi fi2 : fuse_file_info) (buf : List Nat)
    (size : Nat) (offset : Int) (hopen : netfs_open p fi = .ok 0) (h0 : 0 ≤ offset)
    (hbuf : size ≤ buf.length) (hsum : offset + size < 2 ^ 64) :
    ∃ r buf2, netfs_read p buf size offset fi2 = .ok (r, buf2) ∧ 0 ≤ r ∧ r ≤ 13 := by
  obtain ⟨rest, hp, hcmp⟩ := netfs_open_ok_rest p fi hopen
  rw [netfs_read_of_rest p rest buf size offset fi2 hp hcmp,
    netfs_read_window buf size offset fi2 h0 hbuf hsum]
  exact ⟨_, _, rfl, by omega, by omega⟩

/-! ## The operations on the two nodes and on unknown paths -/

/-- C1: the windowed read of `/test_file` is claimed for every offset and
every requested length. At offset 1 and length `2 ^ 64 - 1` (a `size_t`) the
sum `offset + size` wraps to 0, the clamp is skipped and `memcpy` is asked for
`2 ^ 64 - 1` bytes where 13 are readable, instead of the 12 bytes
`min(length, 13 - offset)` of the claim. -/
theorem C1_read_window_breaks_on_wrap (buf : List Nat) :
    netfs_read (cstr "/test_file") buf (2 ^ 64 - 1) 1 ⟨O_RDONLY⟩ =
      .error (.memcpy_overrun (2 ^ 64 - 1) 13 buf.length) :=
  netfs_read_wrap buf (2 ^ 64 - 1) 1 ⟨O_RDONLY⟩ (by decide) (by decide) (by decide) (by decide)

/-- C2: for an absolute path other than `/` and `/test_file`, each of
`netfs_getattr`, `netfs_open` and `netfs_read` returns `-ENOENT`, whatever the
other arguments are. -/
theorem C2_unknown_path_not_found (p : CString) (hw : WellFormed p)
    (habs : cstr "/" <+: p) (hroot : p ≠ cstr "/") (hfile : p ≠ cstr "/test_file") :
    (∀ (stbuf : Stat) (fi : Option fuse_file_info),
        netfs_getattr p stbuf fi = .ok (-ENOENT, memset_zero stbuf)) ∧
    (∀ fi : fuse_file_info, netfs_open p fi = .ok (-ENOENT)) ∧
    (∀ (buf : List Nat) (size : Nat) (offset : Int) (fi : fuse_file_info),
        netfs_read p buf size offset fi = .ok (-ENOENT, buf)) := by
  obtain ⟨rest, rfl⟩ := habs
  have hrest_wf : WellFormed rest := fun h => hw (List.mem_append_right _ h)
  have hrest : rest ≠ cstr "test_file" := fun h => hfile (by rw [h]; rfl)
  have hcmp : strcmp rest (cstr "test_file") ≠ 0 := strcmp_rest_ne rest hrest_wf hrest
  have hslash : strcmp (cstr "/" ++ rest) (cstr "/") ≠ 0 := fun h =>
    hroot ((strcmp_eq_zero_iff _ _ hw wellFormed_root).mp h)
  have hpath : path_plus_one (cstr "/" ++ rest) = .ok rest := rfl
  refine ⟨?_, ?_, ?_⟩
  · intro stbuf fi
    unfold netfs_getattr
    simp only [hpath, Except.bind, if_neg hslash, if_neg hcmp]
  · intro fi
    unfold netfs_open
    simp only [hpath, Except.bind, ne_eq, hcmp, not_false_eq_true, if_true]
  · intro buf size offset fi
    unfold netfs_read
    simp only [hpath, Except.bind, ne_eq, hcmp, not_false_eq_true, if_true]

/-- Witness of C2 at the path `/foo`. -/
theorem C2_unknown_path_not_found_witness :
    WellFormed (cstr "/foo") ∧ cstr "/" <+: cstr "/foo" ∧ cstr "/foo" ≠ cstr "/" ∧
    cstr "/foo" ≠ cstr "/test_file" ∧
    ((∀ (stbuf : Stat) (fi : Option fuse_file_info),
        netfs_getattr (cstr "/foo") stbuf fi = .ok (-ENOENT, memset_zero stbuf)) ∧
    (∀ fi : fuse_file_info, netfs_open (cstr "/foo") fi = .ok (-ENOENT)) ∧
    (∀ (buf : List Nat) (size : Nat) (offset : Int) (fi : fuse_file_info),
        netfs_read (cstr "/foo") buf size offset fi = .ok (-ENOENT, buf))) :=
  ⟨by decide, by decide, by decide, by decide,
    C2_unknown_path_not_found (cstr "/foo") (by decide) (by decide) (by decide) (by decide)⟩

/-- C3: `netfs_getattr` on `/test_file` returns 0 and leaves a record whose
type is regular file, whose permission bits are exactly 0444, whose link count
is 1 and whose size is the length of `TEST_DATA`, 13 bytes. -/
theorem C3_getattr_test_file (stbuf : Stat) (fi : Option fuse_file_info) :
    ∃ st : Stat, netfs_getattr (cstr "/test_file") stbuf fi = .ok (0, st) ∧
      st.st_mode &&& S_IFMT = S_IFREG ∧ st.st_mode &&& 0o7777 = 0o444 ∧
      st.st_nlink = 1 ∧ st.st_size = 13 ∧ st.st_size = (TEST_DATA.length : Int) := by
  refine ⟨{ memset_zero stbuf with st_mode := S_IFREG ||| 0o444, st_nlink := 1, st_size := 13 },
    rfl, ?_, ?_, rfl, rfl, rfl⟩
  · show (S_IFREG ||| 0o444) &&& S_IFMT = S_IFREG
    decide
  · show (S_IFREG ||| 0o444) &&& 0o7777 = 0o444
    decide

/-- C4: `netfs_getattr` on `/` returns 0 and leaves a record whose type is
directory, whose permission bits are exactly 0755 and whose link count is 2. -/
theorem C4_getattr_root (stbuf : Stat) (fi : Option fuse_file_info) :
    ∃ st : Stat, netfs_getattr (cstr "/") stbuf fi = .ok (0, st) ∧
      st.st_mode &&& S_IFMT = S_IFDIR ∧ st.st_mode &&& 0o7777 = 0o755 ∧
      st.st_nlink = 2 := by
  refine ⟨{ memset_zero stbuf with st_mode := S_IFDIR ||| 0o755, st_nlink := 2 },
    rfl, ?_, ?_, rfl⟩
  · show (S_IFDIR ||| 0o755) &&& S_IFMT = S_IFDIR
    decide
  · show (S_IFDIR ||| 0o755) &&& 0o7777 = 0o755
    decide

/-- C5: `netfs_readdir` on `/` returns 0 and calls the host's callback
exactly three times, with the names `.`, `..` and `test_file` in that order;
the log of calls is the same whatever the callback does, and keeping the log
does not change what the host's own buffer becomes. -/
theorem C5_readdir_root_entries {β : Type} (filler : fuse_fill_dir_t β) (buf : β)
    (offset : Int) (fi : fuse_file_info) (flags : Nat) :
    (netfs_readdir (cstr "/") (([] : List FillCall), buf) (logged filler) offset fi flags).1 = 0 ∧
    (netfs_readdir (cstr "/") (([] : List FillCall), buf) (logged filler) offset fi flags).2.1 =
      [⟨cstr ".", none, 0, 0⟩, ⟨cstr "..", none, 0, 0⟩, ⟨cstr "test_file", none, 0, 0⟩] ∧
    (netfs_readdir (cstr "/") (([] : List FillCall), buf) (logged filler) offset fi flags).2.2 =
      (netfs_readdir (cstr "/") buf filler offset fi flags).2 ∧
    (netfs_readdir (cstr "/") buf filler offset fi flags).1 = 0 := by
  have hcmp : strcmp (cstr "/") (cstr "/") = 0 := strcmp_self _
  simp [netfs_readdir, logged, hcmp]

/-- C6: for a path other than `/`, the existing file `/test_file` included,
`netfs_readdir` returns `-ENOENT`, the callback is not called (the log of
calls stays empty) and the host's buffer is handed back as it was. -/
theorem C6_readdir_other_path {β : Type} (p : CString) (hw : WellFormed p)
    (hne : p ≠ cstr "/") (filler : fuse_fill_dir_t β) (buf : β) (offset : Int)
    (fi : fuse_file_info) (flags : Nat) :
    netfs_readdir p (([] : List FillCall), buf) (logged filler) offset fi flags =
      (-ENOENT, ([], buf)) ∧
    netfs_readdir p buf filler offset fi flags = (-ENOENT, buf) := by
  have hcmp : strcmp p (cstr "/") ≠ 0 := fun h =>
    hne ((strcmp_eq_zero_iff _ _ hw wellFormed_root).mp h)
  simp [netfs_readdir, hcmp]

/-- Witness of C6 at the path `/test_file`, with a callback that counts its
calls and reports a full buffer. -/
theorem C6_readdir_other_path_witness :
    WellFormed (cstr "/test_file") ∧ cstr "/test_file" ≠ cstr "/" ∧
    (netfs_readdir (cstr "/test_file") (([] : List FillCall), (0 : Nat))
        (logged fun b _ _ _ _ => (b + 1, 1)) 0 ⟨O_RDONLY⟩ 0 = (-ENOENT, ([], 0)) ∧
      netfs_readdir (cstr "/test_file") (0 : Nat) (fun b _ _ _ _ => (b + 1, 1)) 0 ⟨O_RDONLY⟩ 0 =
        (-ENOENT, 0)) :=
  ⟨by decide, by decide,
    C6_readdir_other_path (cstr "/test_file") (by decide) (by decide)
      (fun b _ _ _ _ => (b + 1, 1)) 0 0 ⟨O_RDONLY⟩ 0⟩

/-- C7: `netfs_open` on `/test_file` returns 0 exactly when the access mode
`flags & O_ACCMODE` is `O_RDONLY` and returns `-EACCES` for every other flags
value; `O_RDONLY` is accepted, `O_WRONLY` and `O_RDWR` are refused. -/
theorem C7_open_access_mode (flags : Int) :
    (netfs_open (cstr "/test_file") ⟨flags⟩ = .ok 0 ↔ Int.land flags O_ACCMODE = O_RDONLY) ∧
    (netfs_open (cstr "/test_file") ⟨flags⟩ =
      .ok (if Int.land flags O_ACCMODE = O_RDONLY then 0 else -EACCES)) ∧
    netfs_open (cstr "/test_file") ⟨O_RDONLY⟩ = .ok 0 ∧
    netfs_open (cstr "/test_file") ⟨O_WRONLY⟩ = .ok (-EACCES) ∧
    netfs_open (cstr "/test_file") ⟨O_RDWR⟩ = .ok (-EACCES) := by
  have hpath : path_plus_one (cstr "/test_file") = .ok (cstr "test_file") := rfl
  have hcmp : strcmp (cstr "test_file") (cstr "test_file") = 0 := strcmp_self _
  have hval : netfs_open (cstr "/test_file") ⟨flags⟩ =
      .ok (if Int.land flags O_ACCMODE = O_RDONLY then 0 else -EACCES) := by
    unfold netfs_open
    simp only [hpath, Except.bind, hcmp, ne_eq, not_true_eq_false, if_false]
    by_cases h : Int.land flags O_ACCMODE = O_RDONLY
    · simp [h]
    · simp [h]
  refine ⟨?_, hval, by decide, by decide, by decide⟩
  rw [hval]
  by_cases h : Int.land flags O_ACCMODE = O_RDONLY
  · simp [h]
  · simp [h, EACCES]

/-- C8: the copy of `netfs_read` is claimed to stay within `13 - offset`
bytes for every `size_t` length, with `offset + size` taken modulo `2 ^ 64`. At
offset 12 and length `2 ^ 64 - 12` the sum wraps to 0, nothing is clamped and
`memcpy` is asked for `2 ^ 64 - 12` bytes from a place where 2 bytes are left
(the last byte of `TEST_DATA` and its terminator). -/
theorem C8_read_copy_exceeds_content_on_wrap (buf : List Nat) :
    netfs_read (cstr "/test_file") buf (2 ^ 64 - 12) 12 ⟨O_RDONLY⟩ =
      .error (.memcpy_overrun (2 ^ 64 - 12) 2 buf.length) :=
  netfs_read_wrap buf (2 ^ 64 - 12) 12 ⟨O_RDONLY⟩ (by decide) (by decide) (by decide) (by decide)

/-- C9: a read after a successful open is claimed to return a byte count
between 0 and 13 for every requested length. `netfs_open` accepts
`/test_file` with `O_RDONLY`, and the read at offset 5 with length
`2 ^ 64 - 5` then returns no count: `offset + size` wraps, the clamp is
skipped and `memcpy` is asked for `2 ^ 64 - 5` bytes. -/
theorem C9_read_after_open_breaks_on_wrap (buf : List Nat) :
    netfs_open (cstr "/test_file") ⟨O_RDONLY⟩ = .ok 0 ∧
    netfs_read (cstr "/test_file") buf (2 ^ 64 - 5) 5 ⟨O_RDONLY⟩ =
      .error (.memcpy_overrun (2 ^ 64 - 5) 9 buf.length) :=
  ⟨by decide,
    netfs_read_wrap buf (2 ^ 64 - 5) 5 ⟨O_RDONLY⟩ (by decide) (by decide) (by decide) (by decide)⟩

/-- C10: the size that `netfs_getattr` reports for `/test_file` is the length
of `TEST_DATA`; a read at offset 0 of any length `L` of at least that size
returns exactly that size; and a read at an offset `0 ≤ offset` never returns
a count above the bytes left from there, `size - offset` (none when the
offset is past the end), while every read whose `offset + size` does not wrap
does return a count. -/
theorem C10_size_consistency (stbuf : Stat) (fi : Option fuse_file_info)
    (fi2 : fuse_file_info) (buf : List Nat) (L size : Nat) (offset : Int)
    (hL : strlen TEST_DATA ≤ L) (hL64 : L < 2 ^ 64) (hLbuf : L ≤ buf.length)
    (h0 : 0 ≤ offset) (h63 : offset < 2 ^ 63) (hsize : size < 2 ^ 64)
    (hbuf : size ≤ buf.length) :
    ∃ st : Stat, netfs_getattr (cstr "/test_file") stbuf fi = .ok (0, st) ∧
      st.st_size = (TEST_DATA.length : Int) ∧
      (∃ buf2, netfs_read (cstr "/test_file") buf L 0 fi2 = .ok (st.st_size, buf2)) ∧
      (∀ r buf2, netfs_read (cstr "/test_file") buf size offset fi2 = .ok (r, buf2) →
        r ≤ max 0 (st.st_size - offset)) ∧
      (offset + size < 2 ^ 64 →
        ∃ r buf2, netfs_read (cstr "/test_file") buf size offset fi2 = .ok (r, buf2)) := by
  refine ⟨{ memset_zero stbuf with st_mode := S_IFREG ||| 0o444, st_nlink := 1, st_size := 13 },
    rfl, rfl, ?_, ?_, ?_⟩
  · rw [strlen_TEST_DATA] at hL
    have h := netfs_read_window buf L 0 fi2 (le_refl 0) hLbuf (by omega)
    have hmin : min L (13 - (0 : Int).toNat) = 13 := by simp; omega
    rw [hmin] at h
    exact ⟨_, h⟩
  · intro r buf2 hr
    show r ≤ max 0 ((13 : Int) - offset)
    by_cases hsum : offset + size < 2 ^ 64
    · rw [netfs_read_window buf size offset fi2 h0 hbuf hsum] at hr
      have hr1 := (Prod.mk.inj (Except.ok.inj hr)).1
      omega
    · obtain ⟨o, rfl⟩ := Int.eq_ofNat_of_zero_le h0
      by_cases ho13 : o < 13
      · have ho : 0 < o := by omega
        rw [netfs_read_wrap buf size o fi2 ho ho13 hsize (by omega)] at hr
        cases hr
      · rw [netfs_read_past_end buf size o fi2 (by omega) (by omega)] at hr
        have hr1 := (Prod.mk.inj (Except.ok.inj hr)).1
        omega
  · intro hsum
    exact ⟨_, _, netfs_read_window buf size offset fi2 h0 hbuf hsum⟩

/-- Witness of C10 with a 20-byte buffer: a read of 20 bytes at offset 0 and a
read of 5 bytes at offset 6. -/
theorem C10_size_consistency_witness :
    strlen TEST_DATA ≤ 20 ∧ 20 < 2 ^ 64 ∧ 20 ≤ (List.replicate 20 0).length ∧
    (0 : Int) ≤ 6 ∧ (6 : Int) < 2 ^ 63 ∧ 5 < 2 ^ 64 ∧ 5 ≤ (List.replicate 20 0).length ∧
    ∃ st : Stat, netfs_getattr (cstr "/test_file") (memset_zero ⟨0, 0, 0, 0, 0, 0, 0, 0, 0, 0,
        ⟨0, 0⟩, ⟨0, 0⟩, ⟨0, 0⟩⟩) none = .ok (0, st) ∧
      st.st_size = (TEST_DATA.length : Int) ∧
      (∃ buf2, netfs_read (cstr "/test_file") (List.replicate 20 0) 20 0 ⟨O_RDONLY⟩ =
        .ok (st.st_size, buf2)) ∧
      (∀ r buf2, netfs_read (cstr "/test_file") (List.replicate 20 0) 5 6 ⟨O_RDONLY⟩ =
          .ok (r, buf2) → r ≤ max 0 (st.st_size - 6)) ∧
      ((6 : Int) + (5 : Nat) < 2 ^ 64 →
        ∃ r buf2, netfs_read (cstr "/test_file") (List.replicate 20 0) 5 6 ⟨O_RDONLY⟩ =
          .ok (r, buf2)) :=
  ⟨by decide, by decide, by decide, by decide, by decide, by decide, by decide,
    C10_size_consistency _ none ⟨O_RDONLY⟩ (List.replicate 20 0) 20 5 6
      (by decide) (by decide) (by decide) (by decide) (by decide) (by decide) (by decide)⟩

/-! ## Independence of the caller's state -/

theorem length_literal_drop (k : Nat) : ((TEST_DATA ++ [0]).drop k).length = 14 - k := by
  simp [length_TEST_DATA]

/-- What `memcpy` delivers in its first `n` bytes, and whether it faults,
depends on the destination only through its length. -/
theorem memcpy_delivered (dst1 dst2 src : List Nat) (n : Nat)
    (hlen : dst1.length = dst2.length) (hsrc : src.length ≤ 14) :
    ((memcpy dst1 src n).bind fun b => .ok (delivered (size_t_to_int n, b))) =
      ((memcpy dst2 src n).bind fun b => .ok (delivered (size_t_to_int n, b))) := by
  unfold memcpy
  rw [hlen]
  by_cases h : n ≤ src.length ∧ n ≤ dst2.length
  · rw [if_pos h, if_pos h]
    have hn : size_t_to_int n = n := size_t_to_int_small n (by omega)
    have htake : ∀ d : List Nat, (src.take n ++ d.drop n).take n = src.take n := by
      intro d
      rw [List.take_append_of_le_length (by simp; omega)]
      simp
    simp [Except.bind, delivered, hn, htake]
  · rw [if_neg h, if_neg h]

/-- The return value and the delivered bytes of a read, or its fault, are
the same for two buffers of one length and any two `fi`. -/
theorem netfs_read_delivered (p : CString) (buf1 buf2 : List Nat) (size : Nat)
    (offset : Int) (fi1 fi2 : fuse_file_info) (hlen : buf1.length = buf2.length) :
    (netfs_read p buf1 size offset fi1).map delivered =
      (netfs_read p buf2 size offset fi2).map delivered := by
  cases p with
  | nil => rfl
  | cons c rest =>
    unfold netfs_read
    simp only [path_plus_one, Except.bind]
    by_cases hcmp : strcmp rest (cstr "test_file") = 0
    · simp only [hcmp, ne_eq, not_true_eq_false, if_false]
      by_cases hlt : to_size_t offset < strlen TEST_DATA
      · simp only [if_pos hlt]
        have h := memcpy_delivered buf1 buf2 ((TEST_DATA ++ [0]).drop offset.toNat)
          (if (to_size_t offset + size) % 2 ^ 64 > strlen TEST_DATA then
            (strlen TEST_DATA + 2 ^ 64 - to_size_t offset) % 2 ^ 64 else size) hlen
          (by rw [length_literal_drop]; omega)
        cases h1 : memcpy buf1 ((TEST_DATA ++ [0]).drop offset.toNat)
          (if (to_size_t offset + size) % 2 ^ 64 > strlen TEST_DATA then
            (strlen TEST_DATA + 2 ^ 64 - to_size_t offset) % 2 ^ 64 else size) <;>
        cases h2 : memcpy buf2 ((TEST_DATA ++ [0]).drop offset.toNat)
          (if (to_size_t offset + size) % 2 ^ 64 > strlen TEST_DATA then
            (strlen TEST_DATA + 2 ^ 64 - to_size_t offset) % 2 ^ 64 else size) <;>
        simp only [h1, h2, Except.bind] at h <;>
        simp only [Except.map, Except.bind] <;>
        exact h
      · simp only [if_neg hlt]
        simp [Except.map, delivered, size_t_to_int]
    · simp only [ne_eq, hcmp, not_false_eq_true, if_true]
      simp [Except.map, delivered, ENOENT]

/-- C11: each operation's result is a function of its request arguments
only. `netfs_getattr` gives the same return value and record whatever the
stat buffer held before (and whatever `fi` is); `netfs_readdir` gives the same
return value and the same sequence of emitted entries whatever the host's
buffer holds and whatever its callback does; `netfs_open` depends on nothing
but the path and the flags; `netfs_read` gives the same return value and the
same delivered bytes (or the same fault) whatever the buffer held before. No
operation takes or leaves any other state, so calls in between cannot change
a result. -/
theorem C11_results_depend_on_arguments_only {β1 β2 : Type} (p : CString)
    (stbuf1 stbuf2 : Stat) (gfi1 gfi2 : Option fuse_file_info)
    (filler1 : fuse_fill_dir_t β1) (filler2 : fuse_fill_dir_t β2) (dbuf1 : β1) (dbuf2 : β2)
    (doffset : Int) (fi fi2 : fuse_file_info) (dflags : Nat)
    (buf1 buf2 : List Nat) (size : Nat) (offset : Int)
    (hflags : fi2.flags = fi.flags) (hlen : buf1.length = buf2.length) :
    netfs_getattr p stbuf1 gfi1 = netfs_getattr p stbuf2 gfi2 ∧
    (netfs_readdir p (([] : List FillCall), dbuf1) (logged filler1) doffset fi dflags).1 =
      (netfs_readdir p (([] : List FillCall), dbuf2) (logged filler2) doffset fi dflags).1 ∧
    (netfs_readdir p (([] : List FillCall), dbuf1) (logged filler1) doffset fi dflags).2.1 =
      (netfs_readdir p (([] : List FillCall), dbuf2) (logged filler2) doffset fi dflags).2.1 ∧
    netfs_open p fi2 = netfs_open p fi ∧
    (netfs_read p buf1 size offset fi).map delivered =
      (netfs_read p buf2 size offset fi).map delivered := by
  refine ⟨rfl, ?_, ?_, ?_, netfs_read_delivered p buf1 buf2 size offset fi fi hlen⟩
  · by_cases h : strcmp p (cstr "/") = 0 <;> simp [netfs_readdir, h]
  · by_cases h : strcmp p (cstr "/") = 0 <;> simp [netfs_readdir, logged, h]
  · unfold netfs_open
    rw [hflags]

/-- Witness of C11 on `/test_file`: two stat buffers, two callbacks and two
5-byte buffers with unlike contents, for a read of 5 bytes at offset 6. -/
theorem C11_results_depend_on_arguments_only_witness :
    (⟨O_RDONLY⟩ : fuse_file_info).flags = (⟨O_RDONLY⟩ : fuse_file_info).flags ∧
    [1, 2, 3, 4, 5].length = [9, 9, 9, 9, 9].length ∧
    (netfs_getattr (cstr "/test_file") (memset_zero ⟨1, 2, 3, 4, 5, 6, 7, 8, 9, 10,
        ⟨11, 12⟩, ⟨13, 14⟩, ⟨15, 16⟩⟩) none =
      netfs_getattr (cstr "/test_file") ⟨1, 2, 3, 4, 5, 6, 7, 8, 9, 10,
        ⟨11, 12⟩, ⟨13, 14⟩, ⟨15, 16⟩⟩ (some ⟨O_RDWR⟩) ∧
    (netfs_readdir (cstr "/test_file") (([] : List FillCall), (0 : Nat))
        (logged fun b _ _ _ _ => (b + 1, 1)) 0 ⟨O_RDONLY⟩ 0).1 =
      (netfs_readdir (cstr "/test_file") (([] : List FillCall), true)
        (logged fun b _ _ _ _ => (!b, 0)) 0 ⟨O_RDONLY⟩ 0).1 ∧
    (netfs_readdir (cstr "/test_file") (([] : List FillCall), (0 : Nat))
        (logged fun b _ _ _ _ => (b + 1, 1)) 0 ⟨O_RDONLY⟩ 0).2.1 =
      (netfs_readdir (cstr "/test_file") (([] : List FillCall), true)
        (logged fun b _ _ _ _ => (!b, 0)) 0 ⟨O_RDONLY⟩ 0).2.1 ∧
    netfs_open (cstr "/test_file") ⟨O_RDONLY⟩ = netfs_open (cstr "/test_file") ⟨O_RDONLY⟩ ∧
    (netfs_read (cstr "/test_file") [1, 2, 3, 4, 5] 5 6 ⟨O_RDONLY⟩).map delivered =
      (netfs_read (cstr "/test_file") [9, 9, 9, 9, 9] 5 6 ⟨O_RDONLY⟩).map delivered) :=
  ⟨rfl, rfl,
    C11_results_depend_on_arguments_only (cstr "/test_file") _ _ none (some ⟨O_RDWR⟩)
      (fun b _ _ _ _ => (b + 1, 1)) (fun b _ _ _ _ => (!b, 0)) 0 true 0 ⟨O_RDONLY⟩ ⟨O_RDONLY⟩ 0
      [1, 2, 3, 4, 5] [9, 9, 9, 9, 9] 5 6 rfl rfl⟩

/-! ## Path resolution -/

theorem netfs_getattr_root (stbuf : Stat) (fi : Option fuse_file_info) :
    netfs_getattr (cstr "/") stbuf fi =
      .ok (0, { memset_zero stbuf with st_mode := S_IFDIR ||| 0o755, st_nlink := 2 }) := rfl

theorem netfs_getattr_file (c : Nat) (stbuf : Stat) (fi : Option fuse_file_info)
    (hc : strcmp (c :: cstr "test_file") (cstr "/") ≠ 0) :
    netfs_getattr (c :: cstr "test_file") stbuf fi =
      .ok (0, { memset_zero stbuf with
        st_mode := S_IFREG ||| 0o444, st_nlink := 1, st_size := 13 }) := by
  have hself : strcmp (cstr "test_file") (cstr "test_file") = 0 := strcmp_self _
  unfold netfs_getattr
  simp only [if_neg hc, path_plus_one, Except.bind, hself, if_true, strlen_TEST_DATA]
  rfl

theorem netfs_getattr_other (c : Nat) (rest : CString) (stbuf : Stat)
    (fi : Option fuse_file_info) (hc : strcmp (c :: rest) (cstr "/") ≠ 0)
    (hcmp : strcmp rest (cstr "test_file") ≠ 0) :
    netfs_getattr (c :: rest) stbuf fi = .ok (-ENOENT, memset_zero stbuf) := by
  unfold netfs_getattr
  simp only [if_neg hc, path_plus_one, Except.bind, if_neg hcmp]

theorem netfs_open_other (c : Nat) (rest : CString) (fi : fuse_file_info)
    (hcmp : strcmp rest (cstr "test_file") ≠ 0) :
    netfs_open (c :: rest) fi = .ok (-ENOENT) := by
  unfold netfs_open
  simp only [path_plus_one, Except.bind, ne_eq, hcmp, not_false_eq_true, if_true]

theorem netfs_open_file (c : Nat) (fi : fuse_file_info) :
    netfs_open (c :: cstr "test_file") fi =
      .ok (if Int.land fi.flags O_ACCMODE = O_RDONLY then 0 else -EACCES) := by
  have hself : strcmp (cstr "test_file") (cstr "test_file") = 0 := strcmp_self _
  unfold netfs_open
  simp only [path_plus_one, Except.bind, hself, ne_eq, not_true_eq_false, if_false]
  by_cases h : Int.land fi.flags O_ACCMODE = O_RDONLY
  · simp [h]
  · simp [h]

theorem netfs_read_other (c : Nat) (rest : CString) (buf : List Nat) (size : Nat)
    (offset : Int) (fi : fuse_file_info) (hcmp : strcmp rest (cstr "test_file") ≠ 0) :
    netfs_read (c :: rest) buf size offset fi = .ok (-ENOENT, buf) := by
  unfold netfs_read
  simp only [path_plus_one, Except.bind, ne_eq, hcmp, not_false_eq_true, if_true]

/-- A read of `/test_file` never returns `-ENOENT`: when it returns, its
value is a count of at most 14. -/
theorem netfs_read_file_count (buf : List Nat) (size : Nat) (offset : Int)
    (fi : fuse_file_info) (r : Int) (b : List Nat)
    (h : netfs_read (cstr "/test_file") buf size offset fi = .ok (r, b)) :
    0 ≤ r ∧ r ≤ 14 := by
  have hpath : path_plus_one (cstr "/test_file") = .ok (cstr "test_file") := rfl
  have hself : strcmp (cstr "test_file") (cstr "test_file") = 0 := strcmp_self _
  unfold netfs_read at h
  rw [hpath] at h
  simp only [Except.bind, hself, ne_eq, not_true_eq_false, if_false] at h
  by_cases hlt : to_size_t offset < strlen TEST_DATA
  · simp only [if_pos hlt] at h
    generalize (if (to_size_t offset + size) % 2 ^ 64 > strlen TEST_DATA then
      (strlen TEST_DATA + 2 ^ 64 - to_size_t offset) % 2 ^ 64 else size) = n at h
    unfold memcpy at h
    rw [length_literal_drop] at h
    by_cases hc : n ≤ 14 - offset.toNat ∧ n ≤ buf.length
    · rw [if_pos hc] at h
      have hr := (Prod.mk.inj (Except.ok.inj h)).1
      rw [size_t_to_int_small _ (by omega)] at hr
      omega
    · rw [if_neg hc] at h
      exact Except.noConfusion h
  · simp only [if_neg hlt] at h
    have hr := (Prod.mk.inj (Except.ok.inj h)).1
    have h0 : size_t_to_int 0 = 0 := by decide
    omega

/-- C12, as stated, fails: the non-empty string `Xtest_file` is not
`/test_file`, yet `netfs_getattr` reports a regular file for it, `netfs_open`
accepts it and `netfs_read` serves the content for it. The comparison of
`path+1` skips the first byte without looking at it. -/
theorem C12_relative_path_is_accepted :
    cstr "Xtest_file" ≠ [] ∧ cstr "Xtest_file" ≠ cstr "/test_file" ∧
    (netfs_getattr (cstr "Xtest_file") (memset_zero ⟨0, 0, 0, 0, 0, 0, 0, 0, 0, 0,
        ⟨0, 0⟩, ⟨0, 0⟩, ⟨0, 0⟩⟩) none).map (fun r => (r.1, r.2.st_mode &&& S_IFMT)) =
      .ok (0, S_IFREG) ∧
    netfs_open (cstr "Xtest_file") ⟨O_RDONLY⟩ = .ok 0 ∧
    netfs_read (cstr "Xtest_file") [0, 0, 0, 0, 0] 5 6 ⟨O_RDONLY⟩ = .ok (5, cstr "world") := by
  decide

/-- C12, amended to absolute paths: for a path that begins with `/`,
`netfs_getattr` reports a regular file exactly for `/test_file`, a directory
exactly for `/`, and returns `-ENOENT` for every other path; `netfs_open` and
`netfs_read` return `-ENOENT` exactly for the paths other than `/test_file`. -/
theorem C12_exact_match_on_absolute_paths (p : CString) (hw : WellFormed p)
    (habs : cstr "/" <+: p) (stbuf : Stat) (gfi : Option fuse_file_info)
    (fi : fuse_file_info) (buf : List Nat) (size : Nat) (offset : Int) :
    ((∃ st, netfs_getattr p stbuf gfi = .ok (0, st) ∧ st.st_mode &&& S_IFMT = S_IFREG) ↔
      p = cstr "/test_file") ∧
    ((∃ st, netfs_getattr p stbuf gfi = .ok (0, st) ∧ st.st_mode &&& S_IFMT = S_IFDIR) ↔
      p = cstr "/") ∧
    (p ≠ cstr "/" → p ≠ cstr "/test_file" →
      netfs_getattr p stbuf gfi = .ok (-ENOENT, memset_zero stbuf)) ∧
    (netfs_open p fi = .ok (-ENOENT) ↔ p ≠ cstr "/test_file") ∧
    ((∃ b, netfs_read p buf size offset fi = .ok (-ENOENT, b)) ↔ p ≠ cstr "/test_file") := by
  obtain ⟨rest, rfl⟩ := habs
  have hrest_wf : WellFormed rest := fun h => hw (List.mem_append_right _ h)
  have hp : cstr "/" ++ rest = 47 :: rest := rfl
  have hroot_iff : strcmp (47 :: rest) (cstr "/") = 0 ↔ 47 :: rest = cstr "/" :=
    strcmp_eq_zero_iff _ _ (hp ▸ hw) wellFormed_root
  rw [hp]
  by_cases hfile : rest = cstr "test_file"
  · subst hfile
    have hne : (47 :: cstr "test_file") ≠ cstr "/" := by decide
    have hc : strcmp (47 :: cstr "test_file") (cstr "/") ≠ 0 := by decide
    have heq : (47 :: cstr "test_file") = cstr "/test_file" := rfl
    rw [netfs_getattr_file 47 stbuf gfi hc, netfs_open_file 47 fi]
    refine ⟨⟨fun _ => heq, fun _ => ⟨_, rfl, ?_⟩⟩, ⟨?_, fun h => absurd h hne⟩,
      fun _ h => absurd heq h, ⟨?_, fun h => absurd heq h⟩, ⟨?_, fun h => absurd heq h⟩⟩
    · show (S_IFREG ||| 0o444) &&& S_IFMT = S_IFREG
      decide
    · rintro ⟨st, hst, hmode⟩
      have h2 := (Prod.mk.inj (Except.ok.inj hst)).2
      rw [← h2] at hmode
      have hreg : (S_IFREG ||| 0o444) &&& S_IFMT ≠ S_IFDIR := by decide
      exact absurd hmode hreg
    · intro h
      have h1 := Except.ok.inj h
      by_cases hm : Int.land fi.flags O_ACCMODE = O_RDONLY
      · rw [if_pos hm] at h1
        exact absurd h1 (by decide)
      · rw [if_neg hm] at h1
        exact absurd h1 (by decide)
    · rintro ⟨b, hb⟩
      rw [heq] at hb
      have := netfs_read_file_count buf size offset fi _ _ hb
      have hE : ENOENT = 2 := rfl
      omega
  · have hcmp : strcmp rest (cstr "test_file") ≠ 0 := strcmp_rest_ne rest hrest_wf hfile
    have hne : (47 :: rest) ≠ cstr "/test_file" := fun h => hfile (List.cons.inj h).2
    rw [netfs_open_other 47 rest fi hcmp, netfs_read_other 47 rest buf size offset fi hcmp]
    by_cases hroot : rest = []
    · subst hroot
      have heq : (47 :: ([] : CString)) = cstr "/" := rfl
      rw [heq, netfs_getattr_root stbuf gfi]
      refine ⟨⟨?_, fun h => absurd h (by decide)⟩, ⟨fun _ => rfl, fun _ => ⟨_, rfl, ?_⟩⟩,
        fun h _ => absurd rfl h, ⟨fun _ => by decide, fun _ => rfl⟩,
        ⟨fun _ => by decide, fun _ => ⟨buf, rfl⟩⟩⟩
      · rintro ⟨st, hst, hmode⟩
        have h2 := (Prod.mk.inj (Except.ok.inj hst)).2
        rw [← h2] at hmode
        have hdir : (S_IFDIR ||| 0o755) &&& S_IFMT ≠ S_IFREG := by decide
        exact absurd hmode hdir
      · show (S_IFDIR ||| 0o755) &&& S_IFMT = S_IFDIR
        decide
    · have hne2 : (47 :: rest) ≠ cstr "/" := fun h => hroot (List.cons.inj h).2
      have hc : strcmp (47 :: rest) (cstr "/") ≠ 0 := fun h => hne2 (hroot_iff.mp h)
      rw [netfs_getattr_other 47 rest stbuf gfi hc hcmp]
      have hE : (-ENOENT : Int) ≠ 0 := by decide
      refine ⟨⟨?_, fun h => absurd h hne⟩, ⟨?_, fun h => absurd h hne2⟩, fun _ _ => rfl,
        ⟨fun _ => hne, fun _ => rfl⟩, ⟨fun _ => hne, fun _ => ⟨buf, rfl⟩⟩⟩
      · rintro ⟨st, hst, _⟩
        exact absurd (Prod.mk.inj (Except.ok.inj hst)).1 hE
      · rintro ⟨st, hst, _⟩
        exact absurd (Prod.mk.inj (Except.ok.inj hst)).1 hE

/-- Witness of the amended C12 at the path `/test_file`. -/
theorem C12_exact_match_on_absolute_paths_witness :
    WellFormed (cstr "/test_file") ∧ cstr "/" <+: cstr "/test_file" ∧
    (((∃ st, netfs_getattr (cstr "/test_file") (memset_zero ⟨0, 0, 0, 0, 0, 0, 0, 0, 0, 0,
        ⟨0, 0⟩, ⟨0, 0⟩, ⟨0, 0⟩⟩) none = .ok (0, st) ∧ st.st_mode &&& S_IFMT = S_IFREG) ↔
      cstr "/test_file" = cstr "/test_file") ∧
    ((∃ st, netfs_getattr (cstr "/test_file") (memset_zero ⟨0, 0, 0, 0, 0, 0, 0, 0, 0, 0,
        ⟨0, 0⟩, ⟨0, 0⟩, ⟨0, 0⟩⟩) none = .ok (0, st) ∧ st.st_mode &&& S_IFMT = S_IFDIR) ↔
      cstr "/test_file" = cstr "/") ∧
    (cstr "/test_file" ≠ cstr "/" → cstr "/test_file" ≠ cstr "/test_file" →
      netfs_getattr (cstr "/test_file") (memset_zero ⟨0, 0, 0, 0, 0, 0, 0, 0, 0, 0,
        ⟨0, 0⟩, ⟨0, 0⟩, ⟨0, 0⟩⟩) none = .ok (-ENOENT, memset_zero (memset_zero
          ⟨0, 0, 0, 0, 0, 0, 0, 0, 0, 0, ⟨0, 0⟩, ⟨0, 0⟩, ⟨0, 0⟩⟩))) ∧
    (netfs_open (cstr "/test_file") ⟨O_RDONLY⟩ = .ok (-ENOENT) ↔
      cstr "/test_file" ≠ cstr "/test_file") ∧
    ((∃ b, netfs_read (cstr "/test_file") [0, 0, 0, 0, 0] 5 6 ⟨O_RDONLY⟩ = .ok (-ENOENT, b)) ↔
      cstr "/test_file" ≠ cstr "/test_file")) :=
  ⟨by decide, by decide,
    C12_exact_match_on_absolute_paths (cstr "/test_file") (by decide) (by decide) _ none
      ⟨O_RDONLY⟩ [0, 0, 0, 0, 0] 5 6⟩

/-! ## Directory listing and continuation state -/

/-- C13: `netfs_readdir` on `/` ignores the offset and the flags the host
passes: for every offset, `fi` and flags the call returns 0 and emits the
same three entries, each with no attribute record, next-offset 0 and fill
flags 0, and the result is the one for offset 0 and flags 0. The value the
callback returns is not looked at: replacing it by any other value (a 'buffer
full' 1 included) changes neither the return value, nor the entries, nor the
host's buffer. -/
theorem C13_readdir_ignores_continuation {β : Type} (filler : fuse_fill_dir_t β) (buf : β)
    (offset : Int) (fi : fuse_file_info) (flags : Nat) (g : Int → Int) :
    netfs_readdir (cstr "/") (([] : List FillCall), buf) (logged filler) offset fi flags =
      netfs_readdir (cstr "/") (([] : List FillCall), buf) (logged filler) 0 ⟨O_RDONLY⟩ 0 ∧
    (netfs_readdir (cstr "/") (([] : List FillCall), buf) (logged filler) offset fi flags).1 = 0 ∧
    (netfs_readdir (cstr "/") (([] : List FillCall), buf) (logged filler) offset fi flags).2.1 =
      [⟨cstr ".", none, 0, 0⟩, ⟨cstr "..", none, 0, 0⟩, ⟨cstr "test_file", none, 0, 0⟩] ∧
    netfs_readdir (cstr "/") (([] : List FillCall), buf)
        (logged fun b n st o f => ((filler b n st o f).1, g (filler b n st o f).2))
        offset fi flags =
      netfs_readdir (cstr "/") (([] : List FillCall), buf) (logged filler) offset fi flags := by
  have hcmp : strcmp (cstr "/") (cstr "/") = 0 := strcmp_self _
  refine ⟨rfl, ?_, ?_, ?_⟩ <;> simp [netfs_readdir, logged, hcmp]

/-! ## Composition of reads -/

/-- The bytes a windowed read delivers are the `size` bytes of the content
from `o` on, as far as the content reaches. -/
theorem delivered_window (buf : List Nat) (size o : Nat) :
    delivered (((min size (13 - o) : Nat) : Int),
        (TEST_DATA.drop o).take (min size (13 - o)) ++ buf.drop (min size (13 - o))) =
      (((min size (13 - o) : Nat) : Int), (TEST_DATA.drop o).take size) := by
  have hlen : (TEST_DATA.drop o).length = 13 - o := by simp [length_TEST_DATA]
  have htake : (TEST_DATA.drop o).take (min size (13 - o)) = (TEST_DATA.drop o).take size := by
    by_cases h : size ≤ 13 - o
    · rw [Nat.min_eq_left h]
    · rw [Nat.min_eq_right (by omega), List.take_of_length_le (by omega),
        List.take_of_length_le (by omega)]
  unfold delivered
  simp only [Int.toNat_ofNat]
  rw [List.take_append_of_le_length (by rw [List.length_take, hlen]; omega)]
  rw [List.take_take, Nat.min_self, htake]

/-- The delivered bytes of a read of `/test_file` whose `offset + size` does
not wrap. -/
theorem netfs_read_delivered_window (buf : List Nat) (size o : Nat) (fi : fuse_file_info)
    (hbuf : size ≤ buf.length) (hsum : o + size < 2 ^ 64) :
    (netfs_read (cstr "/test_file") buf size (o : Int) fi).map delivered =
      .ok (((min size (13 - o) : Nat) : Int), (TEST_DATA.drop o).take size) := by
  rw [netfs_read_window_nat buf size o fi hbuf hsum]
  show Except.ok (delivered _) = _
  rw [delivered_window]

/-- Consecutive reads from `o` on deliver the content from `o` on, up to the
sum of the requested lengths. -/
theorem read_chunks_eq (fi : fuse_file_info) (sizes : List Nat) (o : Nat)
    (hsum : o + sizes.sum < 2 ^ 64) :
    read_chunks (cstr "/test_file") fi sizes (o : Int) =
      .ok ((TEST_DATA.drop o).take sizes.sum) := by
  induction sizes generalizing o with
  | nil => simp [read_chunks]
  | cons k ks ih =>
    have hsum2 : o + (k + ks.sum) < 2 ^ 64 := by simpa using hsum
    have hk : netfs_read (cstr "/test_file") (List.replicate k 0) k (o : Int) fi = _ :=
      netfs_read_window_nat (List.replicate k 0) k o fi (by rw [List.length_replicate])
        (by omega)
    have hrest := ih (o + k) (by omega)
    have hcast : ((o : Int) + (k : Int)) = ((o + k : Nat) : Int) := by push_cast; rfl
    unfold read_chunks
    rw [hk, hcast, hrest]
    simp only [Except.bind, delivered_window]
    rw [List.sum_cons, List.take_add, List.drop_drop]

/-- C14: for an offset `0 ≤ o` and lengths `k ≤ L` with `o + L` below
`2 ^ 64`, the bytes delivered by the read of `k` bytes at `o` followed by the
bytes delivered by the read of `L - k` bytes at `o + k` are the bytes
delivered by the read of `L` bytes at `o`, and the counts add up. Reading
`/test_file` from offset 0 in consecutive chunks of any sizes delivers the
first bytes of `"hello world!\n"` up to the sum of the sizes, and all of it
once the sizes sum to its length. -/
theorem C14_read_composition (buf1 buf2 buf3 : List Nat) (k L : Nat) (o : Int)
    (fi : fuse_file_info) (sizes : List Nat) (h0 : 0 ≤ o) (hk : k ≤ L)
    (hsum : o + L < 2 ^ 64) (hb1 : k ≤ buf1.length) (hb2 : L - k ≤ buf2.length)
    (hb3 : L ≤ buf3.length) (hsizes : sizes.sum < 2 ^ 64) :
    ∃ r1 r2 d1 d2,
      (netfs_read (cstr "/test_file") buf1 k o fi).map delivered = .ok (r1, d1) ∧
      (netfs_read (cstr "/test_file") buf2 (L - k) (o + k) fi).map delivered = .ok (r2, d2) ∧
      (netfs_read (cstr "/test_file") buf3 L o fi).map delivered = .ok (r1 + r2, d1 ++ d2) ∧
      read_chunks (cstr "/test_file") fi sizes 0 = .ok (TEST_DATA.take sizes.sum) ∧
      (TEST_DATA.length ≤ sizes.sum →
        read_chunks (cstr "/test_file") fi sizes 0 = .ok TEST_DATA) := by
  obtain ⟨n, rfl⟩ := Int.eq_ofNat_of_zero_le h0
  have hsumN : n + L < 2 ^ 64 := by omega
  have hchunks : read_chunks (cstr "/test_file") fi sizes 0 = .ok (TEST_DATA.take sizes.sum) := by
    have h := read_chunks_eq fi sizes 0 (by omega)
    simpa using h
  have hcast : ((n : Int) + (k : Int)) = ((n + k : Nat) : Int) := by push_cast; rfl
  refine ⟨((min k (13 - n) : Nat) : Int), ((min (L - k) (13 - (n + k)) : Nat) : Int),
    (TEST_DATA.drop n).take k, (TEST_DATA.drop (n + k)).take (L - k),
    netfs_read_delivered_window buf1 k n fi hb1 (by omega), ?_, ?_, hchunks, ?_⟩
  · rw [hcast]
    exact netfs_read_delivered_window buf2 (L - k) (n + k) fi hb2 (by omega)
  · rw [netfs_read_delivered_window buf3 L n fi hb3 hsumN]
    have hcount : ((min L (13 - n) : Nat) : Int) =
        ((min k (13 - n) : Nat) : Int) + ((min (L - k) (13 - (n + k)) : Nat) : Int) := by
      omega
    have hbytes : (TEST_DATA.drop n).take L =
        (TEST_DATA.drop n).take k ++ (TEST_DATA.drop (n + k)).take (L - k) := by
      have hL : L = k + (L - k) := by omega
      rw [← List.drop_drop, ← List.take_add, ← hL]
    rw [hcount, hbytes]
  · intro hlen
    rw [hchunks, List.take_of_length_le hlen]

/-- Witness of C14: reads of 3 and 5 bytes at offsets 4 and 7 against a read
of 8 bytes at offset 4, and chunks of 5, 3 and 10 bytes from offset 0. -/
theorem C14_read_composition_witness :
    (0 : Int) ≤ 4 ∧ 3 ≤ 8 ∧ (4 : Int) + (8 : Nat) < 2 ^ 64 ∧ 3 ≤ [0, 0, 0].length ∧
    8 - 3 ≤ [0, 0, 0, 0, 0].length ∧ 8 ≤ [0, 0, 0, 0, 0, 0, 0, 0].length ∧
    [5, 3, 10].sum < 2 ^ 64 ∧
    ∃ r1 r2 d1 d2,
      (netfs_read (cstr "/test_file") [0, 0, 0] 3 4 ⟨O_RDONLY⟩).map delivered = .ok (r1, d1) ∧
      (netfs_read (cstr "/test_file") [0, 0, 0, 0, 0] (8 - 3) (4 + (3 : Nat))
        ⟨O_RDONLY⟩).map delivered = .ok (r2, d2) ∧
      (netfs_read (cstr "/test_file") [0, 0, 0, 0, 0, 0, 0, 0] 8 4 ⟨O_RDONLY⟩).map delivered =
        .ok (r1 + r2, d1 ++ d2) ∧
      read_chunks (cstr "/test_file") ⟨O_RDONLY⟩ [5, 3, 10] 0 =
        .ok (TEST_DATA.take [5, 3, 10].sum) ∧
      (TEST_DATA.length ≤ [5, 3, 10].sum →
        read_chunks (cstr "/test_file") ⟨O_RDONLY⟩ [5, 3, 10] 0 = .ok TEST_DATA) :=
  ⟨by decide, by decide, by decide, by decide, by decide, by decide, by decide,
    C14_read_composition [0, 0, 0] [0, 0, 0, 0, 0] [0, 0, 0, 0, 0, 0, 0, 0] 3 8 4 ⟨O_RDONLY⟩
      [5, 3, 10] (by decide) (by decide) (by decide) (by decide) (by decide) (by decide)
      (by decide)⟩

/-! ## The root directory, the cleared record and the buffer frame -/

/-- C15: the root directory is not openable or readable although
`netfs_getattr` and `netfs_readdir` resolve it: `netfs_open` and `netfs_read`
on `/` return `-ENOENT` for every flags value, size and offset. In
`netfs_open` the path test comes before the access-mode test: an absolute
path other than `/test_file` gets `-ENOENT` for every flags value, the write
modes included, and so never `-EACCES`. -/
theorem C15_root_not_openable {β : Type} (p : CString) (hw : WellFormed p)
    (habs : cstr "/" <+: p) (hne : p ≠ cstr "/test_file") (fi fi2 : fuse_file_info)
    (buf : List Nat) (size : Nat) (offset : Int) (stbuf : Stat)
    (gfi : Option fuse_file_info) (filler : fuse_fill_dir_t β) (dbuf : β) (doffset : Int)
    (dflags : Nat) :
    netfs_open (cstr "/") fi = .ok (-ENOENT) ∧
    netfs_read (cstr "/") buf size offset fi = .ok (-ENOENT, buf) ∧
    (netfs_getattr (cstr "/") stbuf gfi).map Prod.fst = .ok 0 ∧
    (netfs_readdir (cstr "/") dbuf filler doffset fi dflags).1 = 0 ∧
    netfs_open p fi2 = .ok (-ENOENT) ∧
    netfs_open p fi2 ≠ .ok (-EACCES) ∧
    netfs_open p ⟨O_WRONLY⟩ = .ok (-ENOENT) ∧
    netfs_open p ⟨O_RDWR⟩ = .ok (-ENOENT) := by
  have hempty : strcmp ([] : CString) (cstr "test_file") ≠ 0 := by decide
  obtain ⟨rest, rfl⟩ := habs
  have hrest_wf : WellFormed rest := fun h => hw (List.mem_append_right _ h)
  have hp : cstr "/" ++ rest = 47 :: rest := rfl
  have hroot : cstr "/" = 47 :: ([] : CString) := rfl
  have hcmp : strcmp rest (cstr "test_file") ≠ 0 :=
    strcmp_rest_ne rest hrest_wf (fun h => hne (by rw [h]; rfl))
  have hself : strcmp (cstr "/") (cstr "/") = 0 := strcmp_self _
  have hopen : ∀ f : fuse_file_info, netfs_open (cstr "/" ++ rest) f = .ok (-ENOENT) := by
    intro f
    rw [hp]
    exact netfs_open_other 47 rest f hcmp
  refine ⟨?_, ?_, ?_, ?_, hopen fi2, ?_, hopen _, hopen _⟩
  · rw [hroot]
    exact netfs_open_other 47 [] fi hempty
  · rw [hroot]
    exact netfs_read_other 47 [] buf size offset fi hempty
  · rw [netfs_getattr_root]
    rfl
  · simp [netfs_readdir, hself]
  · rw [hopen fi2]
    intro h
    exact absurd (Except.ok.inj h) (by decide)

/-- Witness of C15 at the path `/foo`. -/
theorem C15_root_not_openable_witness :
    WellFormed (cstr "/foo") ∧ cstr "/" <+: cstr "/foo" ∧ cstr "/foo" ≠ cstr "/test_file" ∧
    (netfs_open (cstr "/") ⟨O_RDONLY⟩ = .ok (-ENOENT) ∧
    netfs_read (cstr "/") [7, 7, 7] 3 0 ⟨O_RDONLY⟩ = .ok (-ENOENT, [7, 7, 7]) ∧
    (netfs_getattr (cstr "/") (memset_zero ⟨0, 0, 0, 0, 0, 0, 0, 0, 0, 0,
        ⟨0, 0⟩, ⟨0, 0⟩, ⟨0, 0⟩⟩) none).map Prod.fst = .ok 0 ∧
    (netfs_readdir (cstr "/") (0 : Nat) (fun b _ _ _ _ => (b + 1, 0)) 0 ⟨O_RDONLY⟩ 0).1 = 0 ∧
    netfs_open (cstr "/foo") ⟨O_WRONLY⟩ = .ok (-ENOENT) ∧
    netfs_open (cstr "/foo") ⟨O_WRONLY⟩ ≠ .ok (-EACCES) ∧
    netfs_open (cstr "/foo") ⟨O_WRONLY⟩ = .ok (-ENOENT) ∧
    netfs_open (cstr "/foo") ⟨O_RDWR⟩ = .ok (-ENOENT)) :=
  ⟨by decide, by decide, by decide,
    C15_root_not_openable (cstr "/foo") (by decide) (by decide) (by decide) ⟨O_RDONLY⟩
      ⟨O_WRONLY⟩ [7, 7, 7] 3 0 _ none (fun b _ _ _ _ => (b + 1, 0)) 0 0 0⟩

/-- C16: `netfs_getattr` clears the caller's record before anything else.
For every non-empty path it returns 0 or `-ENOENT`, and in the record it
leaves every field other than mode, link count and size is zero; on
`-ENOENT` mode, link count and size are zero too, so the whole record is
zero whatever the caller passed; for the root directory the size is 0. -/
theorem C16_getattr_clears_record (p : CString) (hp : p ≠ []) (stbuf : Stat)
    (gfi : Option fuse_file_info) :
    ∃ r st, netfs_getattr p stbuf gfi = .ok (r, st) ∧ (r = 0 ∨ r = -ENOENT) ∧
      st.st_dev = 0 ∧ st.st_ino = 0 ∧ st.st_uid = 0 ∧ st.st_gid = 0 ∧ st.st_rdev = 0 ∧
      st.st_blksize = 0 ∧ st.st_blocks = 0 ∧ st.st_atim = ⟨0, 0⟩ ∧ st.st_mtim = ⟨0, 0⟩ ∧
      st.st_ctim = ⟨0, 0⟩ ∧
      (r = -ENOENT → st.st_mode = 0 ∧ st.st_nlink = 0 ∧ st.st_size = 0) ∧
      (p = cstr "/" → r = 0 ∧ st.st_size = 0) := by
  cases p with
  | nil => exact absurd rfl hp
  | cons c rest =>
    have hE : (0 : Int) ≠ -ENOENT := by decide
    by_cases hroot : strcmp (c :: rest) (cstr "/") = 0
    · refine ⟨0, { memset_zero stbuf with st_mode := S_IFDIR ||| 0o755, st_nlink := 2 },
        ?_, Or.inl rfl, rfl, rfl, rfl, rfl, rfl, rfl, rfl, rfl, rfl, rfl,
        fun h => absurd h hE, fun _ => ⟨rfl, rfl⟩⟩
      unfold netfs_getattr
      simp only [if_pos hroot]
    · have hnot : c :: rest ≠ cstr "/" := fun h => hroot (by rw [h]; exact strcmp_self _)
      by_cases hcmp : strcmp rest (cstr "test_file") = 0
      · refine ⟨0, { memset_zero stbuf with
            st_mode := S_IFREG ||| 0o444, st_nlink := 1, st_size := 13 },
          ?_, Or.inl rfl, rfl, rfl, rfl, rfl, rfl, rfl, rfl, rfl, rfl, rfl,
          fun h => absurd h hE, fun h => absurd h hnot⟩
        unfold netfs_getattr
        simp only [if_neg hroot, path_plus_one, Except.bind, hcmp, if_true, strlen_TEST_DATA]
        rfl
      · exact ⟨-ENOENT, memset_zero stbuf, netfs_getattr_other c rest stbuf gfi hroot hcmp,
          Or.inr rfl, rfl, rfl, rfl, rfl, rfl, rfl, rfl, rfl, rfl, rfl,
          fun _ => ⟨rfl, rfl, rfl⟩, fun h => absurd h hnot⟩

/-- Witness of C16 at the path `/nothing`, with a record full of ones. -/
theorem C16_getattr_clears_record_witness :
    cstr "/nothing" ≠ [] ∧
    ∃ r st, netfs_getattr (cstr "/nothing") ⟨1, 1, 1, 1, 1, 1, 1, 1, 1, 1,
        ⟨1, 1⟩, ⟨1, 1⟩, ⟨1, 1⟩⟩ none = .ok (r, st) ∧ (r = 0 ∨ r = -ENOENT) ∧
      st.st_dev = 0 ∧ st.st_ino = 0 ∧ st.st_uid = 0 ∧ st.st_gid = 0 ∧ st.st_rdev = 0 ∧
      st.st_blksize = 0 ∧ st.st_blocks = 0 ∧ st.st_atim = ⟨0, 0⟩ ∧ st.st_mtim = ⟨0, 0⟩ ∧
      st.st_ctim = ⟨0, 0⟩ ∧
      (r = -ENOENT → st.st_mode = 0 ∧ st.st_nlink = 0 ∧ st.st_size = 0) ∧
      (cstr "/nothing" = cstr "/" → r = 0 ∧ st.st_size = 0) :=
  ⟨by decide, C16_getattr_clears_record (cstr "/nothing") (by decide) _ none⟩

/-- The buffer after a windowed copy of `n` bytes keeps its length and every
byte from index `n` on. -/
theorem window_frame (buf : List Nat) (o n : Nat) (hn : n ≤ 13 - o) (hbuf : n ≤ buf.length) :
    ((TEST_DATA.drop o).take n ++ buf.drop n).length = buf.length ∧
    (∀ i : Nat, n ≤ i → ((TEST_DATA.drop o).take n ++ buf.drop n)[i]? = buf[i]?) ∧
    (n = 0 → (TEST_DATA.drop o).take n ++ buf.drop n = buf) := by
  have hlen : ((TEST_DATA.drop o).take n).length = n := by
    rw [List.length_take, List.length_drop, length_TEST_DATA]
    omega
  refine ⟨?_, ?_, ?_⟩
  · rw [List.length_append, hlen, List.length_drop]
    omega
  · intro i hi
    rw [List.getElem?_append_right (by omega), hlen, List.getElem?_drop]
    congr 1
    omega
  · intro h0
    subst h0
    simp

/-- C17: for every non-empty path, every offset `0 ≤ offset` and every
length for which `offset + size` does not wrap, `netfs_read` returns a count
or `-ENOENT`, the buffer keeps its length, every byte at an index at or above
the returned value is unchanged, and when the call returns 0 or `-ENOENT` the
whole buffer is unchanged. -/
theorem C17_read_buffer_frame (p : CString) (buf : List Nat) (size : Nat) (offset : Int)
    (fi : fuse_file_info) (hp : p ≠ []) (h0 : 0 ≤ offset) (hbuf : size ≤ buf.length)
    (hsum : offset + size < 2 ^ 64) :
    ∃ r buf2, netfs_read p buf size offset fi = .ok (r, buf2) ∧
      (r = -ENOENT ∨ (0 ≤ r ∧ r ≤ size)) ∧
      buf2.length = buf.length ∧
      (∀ i : Nat, r ≤ (i : Int) → buf2[i]? = buf[i]?) ∧
      (r = 0 ∨ r = -ENOENT → buf2 = buf) := by
  cases p with
  | nil => exact absurd rfl hp
  | cons c rest =>
    by_cases hcmp : strcmp rest (cstr "test_file") = 0
    · obtain ⟨o, rfl⟩ := Int.eq_ofNat_of_zero_le h0
      have hread := netfs_read_of_rest (c :: rest) rest buf size (o : Int) fi rfl hcmp
      rw [netfs_read_window_nat buf size o fi hbuf (by omega)] at hread
      have hmin1 : min size (13 - o) ≤ 13 - o := Nat.min_le_right _ _
      have hmin2 : min size (13 - o) ≤ size := Nat.min_le_left _ _
      obtain ⟨hlen, hidx, hzero⟩ := window_frame buf o (min size (13 - o)) hmin1 (by omega)
      have hE : ENOENT = 2 := rfl
      refine ⟨_, _, hread, Or.inr ⟨by omega, by omega⟩, hlen, ?_, ?_⟩
      · intro i hi
        exact hidx i (by omega)
      · intro h
        exact hzero (by omega)
    · exact ⟨-ENOENT, buf, netfs_read_other c rest buf size offset fi hcmp, Or.inl rfl, rfl,
        fun _ _ => rfl, fun _ => rfl⟩

/-- Witness of C17: a read of 5 bytes at offset 6 of `/test_file` into an
8-byte buffer. -/
theorem C17_read_buffer_frame_witness :
    cstr "/test_file" ≠ [] ∧ (0 : Int) ≤ 6 ∧ 5 ≤ [1, 2, 3, 4, 5, 6, 7, 8].length ∧
    (6 : Int) + (5 : Nat) < 2 ^ 64 ∧
    ∃ r buf2, netfs_read (cstr "/test_file") [1, 2, 3, 4, 5, 6, 7, 8] 5 6 ⟨O_RDONLY⟩ =
        .ok (r, buf2) ∧
      (r = -ENOENT ∨ (0 ≤ r ∧ r ≤ (5 : Nat))) ∧
      buf2.length = [1, 2, 3, 4, 5, 6, 7, 8].length ∧
      (∀ i : Nat, r ≤ (i : Int) → buf2[i]? = [1, 2, 3, 4, 5, 6, 7, 8][i]?) ∧
      (r = 0 ∨ r = -ENOENT → buf2 = [1, 2, 3, 4, 5, 6, 7, 8]) :=
  ⟨by decide, by decide, by decide, by decide,
    C17_read_buffer_frame (cstr "/test_file") [1, 2, 3, 4, 5, 6, 7, 8] 5 6 ⟨O_RDONLY⟩
      (by decide) (by decide) (by decide) (by decide)⟩

/-! ## Listing and lookup -/

/-- An absolute path for which `netfs_getattr` reports a regular file is
`/test_file`. -/
theorem getattr_regular_rest (rest : CString) (hw : WellFormed (47 :: rest)) (stbuf st : Stat)
    (gfi : Option fuse_file_info) (h : netfs_getattr (47 :: rest) stbuf gfi = .ok (0, st))
    (hm : st.st_mode &&& S_IFMT = S_IFREG) : rest = cstr "test_file" := by
  have hrest_wf : WellFormed rest := fun h1 => hw (List.mem_cons_of_mem _ h1)
  by_contra hfile
  have hcmp : strcmp rest (cstr "test_file") ≠ 0 := strcmp_rest_ne rest hrest_wf hfile
  by_cases hroot : rest = []
  · subst hroot
    have heq : (47 :: ([] : CString)) = cstr "/" := rfl
    rw [heq, netfs_getattr_root stbuf gfi] at h
    have h2 := (Prod.mk.inj (Except.ok.inj h)).2
    rw [← h2] at hm
    have hdir : (S_IFDIR ||| 0o755) &&& S_IFMT ≠ S_IFREG := by decide
    exact hdir hm
  · have hne : (47 :: rest) ≠ cstr "/" := fun h1 => hroot (List.cons.inj h1).2
    have hc : strcmp (47 :: rest) (cstr "/") ≠ 0 := fun h1 =>
      hne ((strcmp_eq_zero_iff _ _ hw wellFormed_root).mp h1)
    rw [netfs_getattr_other 47 rest stbuf gfi hc hcmp] at h
    have hE : (-ENOENT : Int) ≠ 0 := by decide
    exact hE (Prod.mk.inj (Except.ok.inj h)).1

/-- C18: every name that `netfs_readdir` emits for `/`, other than `.` and
`..`, names a path `/name` that `netfs_getattr` reports as a regular file and
that `netfs_open` accepts with `O_RDONLY`; and, apart from that, every
absolute path that `netfs_getattr` reports as a regular file has its name,
the path without the leading `/`, among the emitted names. The two
directions are separate implications, each under its own hypotheses only. -/
theorem C18_listing_and_lookup_agree {β : Type} (filler : fuse_fill_dir_t β) (dbuf : β)
    (doffset : Int) (fi : fuse_file_info) (dflags : Nat) (name p : CString)
    (stbuf : Stat) (gfi : Option fuse_file_info) :
    (name ∈ (netfs_readdir (cstr "/") (([] : List FillCall), dbuf) (logged filler)
        doffset fi dflags).2.1.map FillCall.name →
      name ≠ cstr "." → name ≠ cstr ".." →
      (∃ st, netfs_getattr (cstr "/" ++ name) stbuf gfi = .ok (0, st) ∧
        st.st_mode &&& S_IFMT = S_IFREG) ∧
      netfs_open (cstr "/" ++ name) ⟨O_RDONLY⟩ = .ok 0) ∧
    (WellFormed p → cstr "/" <+: p →
      (∃ st, netfs_getattr p stbuf gfi = .ok (0, st) ∧ st.st_mode &&& S_IFMT = S_IFREG) →
      p.drop 1 ∈ (netfs_readdir (cstr "/") (([] : List FillCall), dbuf) (logged filler)
        doffset fi dflags).2.1.map FillCall.name) := by
  have hself : strcmp (cstr "/") (cstr "/") = 0 := strcmp_self _
  have hlist : (netfs_readdir (cstr "/") (([] : List FillCall), dbuf) (logged filler)
      doffset fi dflags).2.1.map FillCall.name = [cstr ".", cstr "..", cstr "test_file"] := by
    simp [netfs_readdir, logged, hself]
  rw [hlist]
  constructor
  · intro hname hdot hdotdot
    have hn : name = cstr "test_file" := by
      simp only [List.mem_cons, List.mem_singleton] at hname
      rcases hname with h | h | h | h
      · exact absurd h hdot
      · exact absurd h hdotdot
      · exact h
      · cases h
    subst hn
    have hc : strcmp (47 :: cstr "test_file") (cstr "/") ≠ 0 := by decide
    have hpf : cstr "/" ++ cstr "test_file" = 47 :: cstr "test_file" := rfl
    refine ⟨⟨_, by rw [hpf]; exact netfs_getattr_file 47 stbuf gfi hc, ?_⟩, by decide⟩
    show (S_IFREG ||| 0o444) &&& S_IFMT = S_IFREG
    decide
  · intro hw habs hreg
    obtain ⟨rest, rfl⟩ := habs
    obtain ⟨st, hst, hm⟩ := hreg
    have hp : cstr "/" ++ rest = 47 :: rest := rfl
    rw [hp] at hst hw ⊢
    have hrest := getattr_regular_rest rest hw stbuf st gfi hst hm
    rw [hrest]
    decide

/-- Witness of C18: the emitted name `test_file` for the first direction and,
on its own, the path `/test_file` for the second, with a callback that counts
its calls. -/
theorem C18_listing_and_lookup_agree_witness :
    (cstr "test_file" ∈ (netfs_readdir (cstr "/") (([] : List FillCall), (0 : Nat))
        (logged fun b _ _ _ _ => (b + 1, 0)) 0 ⟨O_RDONLY⟩ 0).2.1.map FillCall.name ∧
      cstr "test_file" ≠ cstr "." ∧ cstr "test_file" ≠ cstr ".." ∧
      (∃ st, netfs_getattr (cstr "/" ++ cstr "test_file") (memset_zero ⟨0, 0, 0, 0, 0, 0, 0, 0, 0, 0, ⟨0, 0⟩, ⟨0, 0⟩, ⟨0, 0⟩⟩) none = .ok (0, st) ∧
        st.st_mode &&& S_IFMT = S_IFREG) ∧
      netfs_open (cstr "/" ++ cstr "test_file") ⟨O_RDONLY⟩ = .ok 0) ∧
    (WellFormed (cstr "/test_file") ∧ cstr "/" <+: cstr "/test_file" ∧
      (∃ st, netfs_getattr (cstr "/test_file") (memset_zero ⟨0, 0, 0, 0, 0, 0, 0, 0, 0, 0, ⟨0, 0⟩, ⟨0, 0⟩, ⟨0, 0⟩⟩) none = .ok (0, st) ∧
        st.st_mode &&& S_IFMT = S_IFREG) ∧
      (cstr "/test_file").drop 1 ∈ (netfs_readdir (cstr "/") (([] : List FillCall), (0 : Nat))
        (logged fun b _ _ _ _ => (b + 1, 0)) 0 ⟨O_RDONLY⟩ 0).2.1.map FillCall.name) :=
  ⟨⟨by decide, by decide, by decide,
      (C18_listing_and_lookup_agree (fun b _ _ _ _ => (b + 1, 0)) (0 : Nat) 0 ⟨O_RDONLY⟩ 0
        (cstr "test_file") (cstr "/test_file") (memset_zero ⟨0, 0, 0, 0, 0, 0, 0, 0, 0, 0, ⟨0, 0⟩, ⟨0, 0⟩, ⟨0, 0⟩⟩) none).1
        (by decide) (by decide) (by decide)⟩,
    ⟨by decide, by decide,
      ⟨{ (memset_zero ⟨0, 0, 0, 0, 0, 0, 0, 0, 0, 0, ⟨0, 0⟩, ⟨0, 0⟩, ⟨0, 0⟩⟩) with st_mode := S_IFREG ||| 0o444, st_nlink := 1, st_size := 13 }, rfl, by decide⟩,
      (C18_listing_and_lookup_agree (fun b _ _ _ _ => (b + 1, 0)) (0 : Nat) 0 ⟨O_RDONLY⟩ 0
        (cstr "test_file") (cstr "/test_file") (memset_zero ⟨0, 0, 0, 0, 0, 0, 0, 0, 0, 0, ⟨0, 0⟩, ⟨0, 0⟩, ⟨0, 0⟩⟩) none).2
        (by decide) (by decide)
        ⟨{ (memset_zero ⟨0, 0, 0, 0, 0, 0, 0, 0, 0, 0, ⟨0, 0⟩, ⟨0, 0⟩, ⟨0, 0⟩⟩) with st_mode := S_IFREG ||| 0o444, st_nlink := 1, st_size := 13 }, rfl,
          by decide⟩⟩⟩

end Netfs
